import Mathlib

/-!
Verification of the `diff-verify` CLI (src/cli.js) against its specification.

The program is a single asynchronous orchestration procedure: it resolves a
glob into a list of target file paths, validates each path, copies each target
to a `.tmp` shadow path, runs an external "emit" command, compares every
target's new contents against its shadow copy with a line diff, and finally
(in a `try`/`finally` block) moves every shadow copy back over its target,
setting the process exit code to 1 when a diff was found.

The shallow embedding below models:
  * the filesystem as an association list from paths to file contents, with
    the `fs.promises` primitives used by the script (`copyFile`, `readFile`)
    and the `move-file` / `path-exists` library calls;
  * the external collaborators that the script treats as oracles
    (`globby`'s result, `is-path-cwd`, `is-path-inside`, and the spawned
    emit command) as parameters collected in `Config`;
  * the `diff` npm package's `diffLines` (an external dependency whose code
    is not part of this repository) at the level of detail the script
    depends on: tokenization of a string into lines and the number of
    components of the resulting merged edit script.  The script only ever
    tests `diff.length > 1`;
  * the script's control flow (validation loop, copy loop, `try` body with
    the spawned command and the diff loop, `finally` restore loop) as
    phase functions composed by `runMain`, each returning the log lines it
    emitted, the filesystem it produced, and its success or failure.
-/

deriving instance DecidableEq for Except

namespace DiffVerify

/-- File paths are strings (the script manipulates them only by appending). -/
abbrev Path := String

/-- The filesystem: an association list from paths to (utf-8) file contents.
The first binding for a path wins. -/
abbrev FS := List (Path × String)

/-- Look up the contents of a path. -/
def readPath : FS → Path → Option String
  | [], _ => none
  | (q, c) :: fs, p => if q = p then some c else readPath fs p

/-- Remove every binding for a path. -/
def removePath : FS → Path → FS
  | [], _ => []
  | (q, c) :: fs, p => if q = p then removePath fs p else (q, c) :: removePath fs p

/-- Write (create or overwrite) a path's contents. -/
def writePath (fs : FS) (p : Path) (c : String) : FS :=
  (p, c) :: removePath fs p

/-- The `path-exists` library call: does a path exist? -/
def pathExists (fs : FS) (p : Path) : Bool :=
  (readPath fs p).isSome

/-- Errors the script can terminate with: the `throw new Error(...)` sites of
src/cli.js (lines 97, 104, 107, 112), a failed `execa` invocation, and the
I/O failures that `fs.promises.copyFile` / `fs.promises.readFile` /
`move-file` surface as rejected promises. -/
inductive Err where
  | noFilesMatched : Err
  | invalidTarget : Path → Err
  | pathEscapesRoot : Path → Err
  | staleTempFile : Path → Err
  | copyFailed : Path → Err
  | emitFailed : Err
  | readFailed : Path → Err
  | moveFailed : Path → Err
deriving DecidableEq

/-- Observable output of the script: the `log(prefix, message)` lines of
src/cli.js (modelled structurally rather than as rendered strings) and the
unified patch text printed by `console.log(patch)` (modelled as the four
arguments the script passes to `createTwoFilesPatch`). -/
inductive LogEvent where
  | copy : Path → Path → LogEvent
  | emit : List String → LogEvent
  | diff : Path → Path → LogEvent
  | move : Path → Path → LogEvent
  | error : String → LogEvent
  | patch : Path → Path → String → String → LogEvent
deriving DecidableEq

/-- The environment the script runs in: the two path predicates
(`is-path-cwd`, `is-path-inside` with `process.cwd()` already applied) and
the behaviour of the spawned emit command, which may transform the
filesystem arbitrarily and either succeed (`true`) or fail (`false`),
covering both a non-zero exit status and a failure to start. -/
structure Config where
  isPathCwd : Path → Bool
  isPathInside : Path → Bool
  emit : FS → FS × Bool

/-- `src/cli.js` line 83: the shadow-copy name of a target file. -/
def getTmpFileName (file : Path) : Path :=
  file ++ ".tmp"

/-- `fs.promises.copyFile(src, dst)`: fails when the source is missing,
otherwise duplicates its contents at `dst`. -/
def copyFile (fs : FS) (src dst : Path) : Except Err FS :=
  match readPath fs src with
  | none => .error (.copyFailed src)
  | some c => .ok (writePath fs dst c)

/-- The `move-file` library call: fails when the source is missing, otherwise
writes the source's contents over `dst` (overwrite is its default) and
removes the source. -/
def moveFile (fs : FS) (src dst : Path) : Except Err FS :=
  match readPath fs src with
  | none => .error (.moveFailed src)
  | some c => .ok (removePath (writePath fs dst c) src)

/-- `fs.promises.readFile(p, 'utf8')`: fails when the path is missing. -/
def readFile (fs : FS) (p : Path) : Except Err String :=
  match readPath fs p with
  | none => .error (.readFailed p)
  | some c => .ok c

/-! ### The `diff` package's `diffLines`

`diffLines` is from the external `diff` npm package (jsdiff); its code is not
part of this repository.  The model below follows jsdiff's documented and
well-known behaviour for `diffLines(oldStr, newStr)` with default options:

  * both strings are tokenized into lines, each line keeping its trailing
    newline (a `"\r\n"` separator stays attached to its line, exactly as
    jsdiff merges separator tokens into the preceding line token), and empty
    tokens are dropped, so the empty string tokenizes to no tokens at all;
  * the result is a minimal edit script over those tokens in which runs of
    equal-kind operations are merged into single components, so the
    component list alternates between `common`, `added` and `removed`
    parts; two equal inputs yield exactly one `common` component (jsdiff's
    identity shortcut), a pure insertion (no old tokens) yields exactly one
    `added` component, and a pure deletion yields exactly one `removed`
    component.

The script only ever inspects `diffLines(...).length > 1`, and the component
count classification (one component versus more than one) of the model below
agrees with jsdiff's on every pair of inputs: the count is `1` exactly when
the inputs are equal, the old string is empty, or the new string is empty.
The contents of the parts of an actual difference are not relied upon by any
theorem in this file. -/

/-- One component of a line-diff result. -/
inductive Part where
  | common : List (List Char) → Part
  | added : List (List Char) → Part
  | removed : List (List Char) → Part
deriving DecidableEq

/-- Tokenizer worker: `acc` holds the (reversed) characters of the line being
accumulated; a `'\n'` closes the current line, keeping the newline attached. -/
def tokenizeAux : List Char → List Char → List (List Char)
  | acc, [] => if acc.isEmpty then [] else [acc.reverse]
  | acc, c :: cs =>
    if c = '\n' then (acc.reverse ++ ['\n']) :: tokenizeAux [] cs
    else tokenizeAux (c :: acc) cs

/-- jsdiff's line tokenization (with empty tokens removed): the empty string
has no tokens; every token of a nonempty string is nonempty. -/
def tokenize (s : String) : List (List Char) :=
  tokenizeAux [] s.data

/-- Concatenation of a token list back into a character list. -/
def joinToks : List (List Char) → List Char
  | [] => []
  | t :: ts => t ++ joinToks ts

/-- Prepend a common token onto an edit script, merging with an existing
leading `common` component (jsdiff merges runs of equal-kind operations). -/
def pushCommon (t : List Char) : List Part → List Part
  | Part.common u :: rest => Part.common (t :: u) :: rest
  | parts => Part.common [t] :: parts

/-- The merged edit script for two distinct token lists: no old tokens is a
pure insertion (one `added` component), no new tokens a pure deletion (one
`removed` component); equal heads are folded into a leading `common`
component, and at the first disagreement the remainders are reported as a
`removed` and an `added` component. -/
def diffGo : List (List Char) → List (List Char) → List Part
  | [], ys => [Part.added ys]
  | xs, [] => [Part.removed xs]
  | x :: xs, y :: ys =>
    if x = y then pushCommon x (diffGo xs ys)
    else [Part.removed (x :: xs), Part.added (y :: ys)]

/-- The `diff` package's `diffLines(oldStr, newStr)`: equal inputs produce a
single `common` component (jsdiff's identity case); otherwise the merged
edit script of the two token lists. -/
def diffLines (oldStr newStr : String) : List Part :=
  if tokenize oldStr = tokenize newStr then [Part.common (tokenize newStr)]
  else diffGo (tokenize oldStr) (tokenize newStr)

/-! ### The orchestration of src/cli.js -/

/-- Result of the copy loop and of the restore loop: the log lines emitted,
the filesystem reached, and success or the error that aborted the loop. -/
structure PhaseOut where
  logs : List LogEvent
  fs : FS
  res : Except Err Unit
deriving DecidableEq

/-- Result of the diff loop: the log lines emitted and either the final
`diffFound` flag or the error that aborted the loop (the loop never writes
to the filesystem). -/
structure DiffOut where
  logs : List LogEvent
  res : Except Err Bool
deriving DecidableEq

/-- Result of the `try` body (emit command plus diff loop): log lines, the
filesystem it left behind, whether `execa` was actually invoked, and either
the `diffFound` flag or the error to be re-raised after the `finally`. -/
structure TryOut where
  logs : List LogEvent
  fs : FS
  spawned : Bool
  res : Except Err Bool
deriving DecidableEq

/-- Observable outcome of a whole run: final filesystem, log lines in order,
whether the emit command was spawned, and either a clean exit code or the
error the process died with. -/
structure RunResult where
  fs : FS
  logs : List LogEvent
  spawned : Bool
  exit : Except Err Nat
deriving DecidableEq

/-- `src/cli.js` lines 100–114: the validation loop over all files.  Each
file is checked, in order, against `is-path-cwd`, `is-path-inside` and a
stale `.tmp` file; the first failure throws.  No filesystem mutation
happens here. -/
def validateFiles (cfg : Config) (fs : FS) : List Path → Except Err Unit
  | [] => .ok ()
  | file :: rest =>
    if cfg.isPathCwd file then .error (.invalidTarget file)
    else if !cfg.isPathInside file then .error (.pathEscapesRoot file)
    else if pathExists fs (getTmpFileName file) then
      .error (.staleTempFile (getTmpFileName file))
    else validateFiles cfg fs rest

/-- `src/cli.js` lines 115–121: the copy loop.  Each file logs its copy line;
in dry-run mode the `copyFile` call is skipped (`continue`), otherwise the
file is copied to its `.tmp` shadow path and a failure aborts the loop. -/
def copyPhase (dryRun : Bool) : List Path → FS → PhaseOut
  | [], fs => ⟨[], fs, .ok ()⟩
  | file :: rest, fs =>
    if dryRun then
      let o := copyPhase dryRun rest fs
      ⟨LogEvent.copy file (getTmpFileName file) :: o.logs, o.fs, o.res⟩
    else
      match copyFile fs file (getTmpFileName file) with
      | .error e => ⟨[LogEvent.copy file (getTmpFileName file)], fs, .error e⟩
      | .ok fs2 =>
        let o := copyPhase dryRun rest fs2
        ⟨LogEvent.copy file (getTmpFileName file) :: o.logs, o.fs, o.res⟩

/-- `src/cli.js` lines 130–150: the diff loop.  Each file logs its diff line;
in dry-run mode the reads and the diff are skipped (`continue`); otherwise
the file and its shadow copy are read (the file first), their line diff is
computed, and when it has more than one component an error line and the
unified patch (the arguments of `createTwoFilesPatch`) are printed and the
`diffFound` flag is set.  A failed read aborts the loop. -/
def diffPhase (dryRun : Bool) : List Path → FS → Bool → DiffOut
  | [], _, diffFound => ⟨[], .ok diffFound⟩
  | file :: rest, fs, diffFound =>
    if dryRun then
      let o := diffPhase dryRun rest fs diffFound
      ⟨LogEvent.diff file (getTmpFileName file) :: o.logs, o.res⟩
    else
      match readFile fs file with
      | .error e => ⟨[LogEvent.diff file (getTmpFileName file)], .error e⟩
      | .ok fileContents =>
        match readFile fs (getTmpFileName file) with
        | .error e => ⟨[LogEvent.diff file (getTmpFileName file)], .error e⟩
        | .ok tempFileContents =>
          if 1 < (diffLines tempFileContents fileContents).length then
            let o := diffPhase dryRun rest fs true
            ⟨LogEvent.diff file (getTmpFileName file) ::
              LogEvent.error ("Found diff in \"" ++ file ++ "\".") ::
              LogEvent.patch (getTmpFileName file) file tempFileContents fileContents ::
              o.logs, o.res⟩
          else
            let o := diffPhase dryRun rest fs diffFound
            ⟨LogEvent.diff file (getTmpFileName file) :: o.logs, o.res⟩

/-- `src/cli.js` lines 151–160: the `finally` restore loop.  Each file logs
its move line; in dry-run mode the `moveFile` call is skipped (`continue`);
otherwise the shadow copy is moved back over the target, and a failed move
aborts the loop (the remaining files are not attempted). -/
def restorePhase (dryRun : Bool) : List Path → FS → PhaseOut
  | [], fs => ⟨[], fs, .ok ()⟩
  | file :: rest, fs =>
    if dryRun then
      let o := restorePhase dryRun rest fs
      ⟨LogEvent.move (getTmpFileName file) file :: o.logs, o.fs, o.res⟩
    else
      match moveFile fs (getTmpFileName file) file with
      | .error e => ⟨[LogEvent.move (getTmpFileName file) file], fs, .error e⟩
      | .ok fs2 =>
        let o := restorePhase dryRun rest fs2
        ⟨LogEvent.move (getTmpFileName file) file :: o.logs, o.fs, o.res⟩

/-- `src/cli.js` lines 125–150: the body of the `try` block.  Unless in
dry-run mode, `execa` spawns the emit command (which transforms the
filesystem and succeeds or fails); on success the diff loop runs.  In
dry-run mode the command is not spawned and the diff loop only logs. -/
def tryBody (cfg : Config) (dryRun : Bool) (files : List Path) (fs : FS) : TryOut :=
  if dryRun then
    ⟨(diffPhase true files fs false).logs, fs, false, (diffPhase true files fs false).res⟩
  else
    if (cfg.emit fs).2 then
      ⟨(diffPhase false files (cfg.emit fs).1 false).logs, (cfg.emit fs).1, true,
        (diffPhase false files (cfg.emit fs).1 false).res⟩
    else
      ⟨[], (cfg.emit fs).1, true, .error .emitFailed⟩

/-- `src/cli.js` lines 85–161: the whole run.  An empty command prints the
usage error and exits 2 (`cli.showHelp(2)`); an empty glob result throws
`NoFilesMatched`; then validation, the copy loop, the `try` body (emit
command plus diff loop) and the `finally` restore loop run in order.  The
restore loop runs on every exit of the `try` body; an error it raises
replaces the body's outcome (JavaScript `finally` semantics), otherwise the
body's error is re-raised, and a clean run exits 1 when a diff was found
(`process.exitCode = 1`) and 0 otherwise.  The `files` argument is the list
returned by `globby(cli.flags.path)`. -/
def runMain (cfg : Config) (emitCommand : List String) (dryRun : Bool)
    (files : List Path) (fs0 : FS) : RunResult :=
  if emitCommand = [] then
    ⟨fs0, [LogEvent.error "Missing command"], false, .ok 2⟩
  else if files = [] then
    ⟨fs0, [], false, .error .noFilesMatched⟩
  else
    match validateFiles cfg fs0 files with
    | .error e => ⟨fs0, [], false, .error e⟩
    | .ok _ =>
      let c := copyPhase dryRun files fs0
      match c.res with
      | .error e => ⟨c.fs, c.logs, false, .error e⟩
      | .ok _ =>
        let t := tryBody cfg dryRun files c.fs
        let r := restorePhase dryRun files t.fs
        ⟨r.fs, c.logs ++ LogEvent.emit emitCommand :: (t.logs ++ r.logs), t.spawned,
          match r.res with
          | .error e => .error e
          | .ok _ =>
            match t.res with
            | .error e => .error e
            | .ok diffFound => .ok (if diffFound then 1 else 0)⟩

/-- The filesystem after the copy loop of a non-dry run. -/
def copyFS (files : List Path) (fs0 : FS) : FS :=
  (copyPhase false files fs0).fs

/-- The filesystem after the emit command of a non-dry run. -/
def emitFS (cfg : Config) (files : List Path) (fs0 : FS) : FS :=
  (cfg.emit (copyFS files fs0)).1

/-- The contents of a path, defaulting to the empty string. -/
def contentOf (fs : FS) (p : Path) : String :=
  (readPath fs p).getD ""

/-- The script's notion of a changed file: the line diff of the shadow copy's
contents against the file's current contents has more than one component
(src/cli.js line 140). -/
def fileChanged (fs : FS) (file : Path) : Bool :=
  decide (1 < (diffLines (contentOf fs (getTmpFileName file)) (contentOf fs file)).length)

/-! ## Basic filesystem lemmas -/

theorem readPath_removePath_self (fs : FS) (p : Path) :
    readPath (removePath fs p) p = none := by
  induction fs with
  | nil => rfl
  | cons e fs ih =>
    obtain ⟨q, c⟩ := e
    by_cases h : q = p
    · simp [removePath, h, ih]
    · simp [removePath, readPath, h, ih]

theorem readPath_removePath_ne (fs : FS) (p q : Path) (h : q ≠ p) :
    readPath (removePath fs p) q = readPath fs q := by
  induction fs with
  | nil => rfl
  | cons e fs ih =>
    obtain ⟨r, c⟩ := e
    by_cases hr : r = p
    · subst hr
      simp [removePath, readPath, Ne.symm h, ih]
    · by_cases hq : r = q
      · simp [removePath, readPath, hr, hq, h]
      · simp [removePath, readPath, hr, hq, ih]

theorem readPath_writePath_self (fs : FS) (p : Path) (c : String) :
    readPath (writePath fs p c) p = some c := by
  simp [writePath, readPath]

theorem readPath_writePath_ne (fs : FS) (p q : Path) (c : String) (h : q ≠ p) :
    readPath (writePath fs p c) q = readPath fs q := by
  simp [writePath, readPath, Ne.symm h, readPath_removePath_ne fs p q h]

/-! ## Lemmas about shadow-copy names -/

theorem getTmpFileName_ne_self (f : Path) : getTmpFileName f ≠ f := by
  intro h
  have hlen := congrArg String.length h
  have h4 : ".tmp".length = 4 := rfl
  rw [getTmpFileName, String.length_append, h4] at hlen
  omega

theorem getTmpFileName_injective {a b : Path} (h : getTmpFileName a = getTmpFileName b) :
    a = b := by
  have hd : a.data ++ ".tmp".data = b.data ++ ".tmp".data := by
    have := congrArg String.data h
    simpa [getTmpFileName] using this
  apply String.ext
  exact List.append_cancel_right hd

/-! ## Lemmas about the line-diff model -/

theorem joinToks_tokenizeAux (cs : List Char) :
    ∀ acc : List Char, joinToks (tokenizeAux acc cs) = acc.reverse ++ cs := by
  induction cs with
  | nil =>
    intro acc
    by_cases h : acc.isEmpty
    · simp [tokenizeAux, h, joinToks]
      simpa [List.isEmpty_iff] using h
    · simp [tokenizeAux, h, joinToks]
  | cons c cs ih =>
    intro acc
    by_cases h : c = '\n'
    · simp [tokenizeAux, h, joinToks, ih]
    · simp [tokenizeAux, h, ih]

theorem joinToks_tokenize (s : String) : joinToks (tokenize s) = s.data := by
  simp [tokenize, joinToks_tokenizeAux]

theorem tokenize_injective {a b : String} (h : tokenize a = tokenize b) : a = b := by
  apply String.ext
  have ha := joinToks_tokenize a
  have hb := joinToks_tokenize b
  rw [← ha, ← hb, h]

theorem tokenize_eq_nil_iff {s : String} : tokenize s = [] ↔ s = "" := by
  constructor
  · intro h
    apply String.ext
    have := joinToks_tokenize s
    rw [h] at this
    simpa [joinToks] using this.symm
  · intro h
    subst h
    rfl

theorem pushCommon_pushCommon_length (t a : List Char) (l : List Part) :
    (pushCommon t (pushCommon a l)).length = (pushCommon a l).length := by
  cases l with
  | nil => rfl
  | cons p r => cases p <;> rfl

theorem two_le_pushCommon_diffGo :
    ∀ (as : List (List Char)) (t : List Char) (bs : List (List Char)),
      as ≠ bs → 2 ≤ (pushCommon t (diffGo as bs)).length := by
  intro as
  induction as with
  | nil =>
    intro t bs h
    cases bs with
    | nil => exact absurd rfl h
    | cons b bs => simp [diffGo, pushCommon]
  | cons a as ih =>
    intro t bs h
    cases bs with
    | nil => simp [diffGo, pushCommon]
    | cons b bs =>
      by_cases hab : a = b
      · subst hab
        have hne : as ≠ bs := by
          intro he
          exact h (by rw [he])
        have hle := ih a bs hne
        have hGo : diffGo (a :: as) (a :: bs) = pushCommon a (diffGo as bs) := by
          simp [diffGo]
        rw [hGo, pushCommon_pushCommon_length]
        exact hle
      · simp [diffGo, hab, pushCommon]

theorem two_le_diffGo {xs ys : List (List Char)}
    (h : xs ≠ ys) (hx : xs ≠ []) (hy : ys ≠ []) : 2 ≤ (diffGo xs ys).length := by
  cases xs with
  | nil => exact absurd rfl hx
  | cons x xs =>
    cases ys with
    | nil => exact absurd rfl hy
    | cons y ys =>
      by_cases hxy : x = y
      · subst hxy
        have hne : xs ≠ ys := by
          intro he
          exact h (by rw [he])
        have hGo : diffGo (x :: xs) (x :: ys) = pushCommon x (diffGo xs ys) := by
          simp [diffGo]
        rw [hGo]
        exact two_le_pushCommon_diffGo xs x ys hne
      · simp [diffGo, hxy]

/-- claim C4 (counterexample): the spec's gloss "`diff.length > 1` iff any
actual difference exists" fails at the concrete pair `old = ""`,
`new = "a"`: the two texts differ, yet the line diff is a single pure
`added` component, so its length is 1 and the script would not flag the
file as changed. -/
theorem c4_counterexample :
    ¬ ((1 < (diffLines "" "a").length) ↔ ("" : String) ≠ "a") := by
  decide

/-- claim C4 (amended): for all pairs of old/new texts in which the old text
is empty exactly when the new text is empty, the line diff has more than
one component if and only if the two texts are not equal.  (When exactly
one of the two texts is empty the diff is a single pure insertion or pure
deletion component, so the script's `diff.length > 1` test does not detect
that difference.) -/
theorem c4_diff_length_iff (oldStr newStr : String)
    (h : oldStr = "" ↔ newStr = "") :
    1 < (diffLines oldStr newStr).length ↔ oldStr ≠ newStr := by
  by_cases heq : oldStr = newStr
  · subst heq
    simp [diffLines]
  · have htok : tokenize oldStr ≠ tokenize newStr := by
      intro hh
      exact heq (tokenize_injective hh)
    have ho : oldStr ≠ "" := by
      intro h0
      exact heq (by rw [h0, h.mp h0])
    have hn : newStr ≠ "" := by
      intro h0
      exact heq (by rw [h0, h.mpr h0])
    have hxs : tokenize oldStr ≠ [] := fun hh => ho (tokenize_eq_nil_iff.mp hh)
    have hys : tokenize newStr ≠ [] := fun hh => hn (tokenize_eq_nil_iff.mp hh)
    have hlen : 2 ≤ (diffGo (tokenize oldStr) (tokenize newStr)).length :=
      two_le_diffGo htok hxs hys
    rw [diffLines, if_neg htok]
    exact iff_of_true (lt_of_lt_of_le one_lt_two hlen) heq

/-- claim C4 (witness): the amended equivalence evaluated at the concrete
nonempty pair `"x"`/`"y"`. -/
theorem c4_diff_length_iff_witness :
    (("x" : String) = "" ↔ ("y" : String) = "") ∧
      (1 < (diffLines "x" "y").length ↔ ("x" : String) ≠ "y") :=
  ⟨by decide, c4_diff_length_iff "x" "y" (by decide)⟩

/-! ## Lemmas about the validation loop -/

theorem validateFiles_ok_spec {cfg : Config} {fs : FS} :
    ∀ {files : List Path}, validateFiles cfg fs files = .ok () →
      ∀ f ∈ files, cfg.isPathCwd f = false ∧ cfg.isPathInside f = true ∧
        pathExists fs (getTmpFileName f) = false := by
  intro files
  induction files with
  | nil =>
    intro _ f hf
    simp at hf
  | cons a rest ih =>
    intro h f hf
    by_cases h1 : cfg.isPathCwd a
    · simp [validateFiles, h1] at h
    · by_cases h2 : cfg.isPathInside a
      · by_cases h3 : pathExists fs (getTmpFileName a)
        · simp [validateFiles, h1, h2, h3] at h
        · have h' : validateFiles cfg fs rest = .ok () := by
            simpa [validateFiles, h1, h2, h3] using h
          rcases List.mem_cons.mp hf with rfl | hf'
          · exact ⟨by simpa using h1, by simpa using h2, by simpa using h3⟩
          · exact ih h' f hf'
      · simp [validateFiles, h1, h2] at h

theorem validateFiles_error_of_bad {cfg : Config} {fs : FS} :
    ∀ {files : List Path},
      (∃ f ∈ files, cfg.isPathCwd f = true ∨ cfg.isPathInside f = false ∨
        pathExists fs (getTmpFileName f) = true) →
      ∃ e, validateFiles cfg fs files = .error e := by
  intro files
  induction files with
  | nil =>
    rintro ⟨f, hf, _⟩
    simp at hf
  | cons a rest ih =>
    rintro ⟨f, hf, hbad⟩
    by_cases h1 : cfg.isPathCwd a
    · exact ⟨.invalidTarget a, by simp [validateFiles, h1]⟩
    · by_cases h2 : cfg.isPathInside a
      · by_cases h3 : pathExists fs (getTmpFileName a)
        · exact ⟨.staleTempFile (getTmpFileName a), by simp [validateFiles, h1, h2, h3]⟩
        · rcases List.mem_cons.mp hf with rfl | hf'
          · rcases hbad with hb | hb | hb
            · exact absurd hb (by simpa using h1)
            · exact absurd hb (by simp [h2])
            · exact absurd hb (by simpa using h3)
          · obtain ⟨e, he⟩ := ih ⟨f, hf', hbad⟩
            exact ⟨e, by simpa [validateFiles, h1, h2, h3] using he⟩
      · exact ⟨.pathEscapesRoot a, by simp [validateFiles, h1, h2]⟩

/-! ## The dry-run behaviour of each phase -/

theorem copyPhase_dry (files : List Path) (fs : FS) :
    copyPhase true files fs =
      ⟨files.map (fun f => LogEvent.copy f (getTmpFileName f)), fs, .ok ()⟩ := by
  induction files with
  | nil => rfl
  | cons a rest ih => simp [copyPhase, ih]

theorem diffPhase_dry (files : List Path) (fs : FS) (b : Bool) :
    diffPhase true files fs b =
      ⟨files.map (fun f => LogEvent.diff f (getTmpFileName f)), .ok b⟩ := by
  induction files with
  | nil => rfl
  | cons a rest ih => simp [diffPhase, ih]

theorem restorePhase_dry (files : List Path) (fs : FS) :
    restorePhase true files fs =
      ⟨files.map (fun f => LogEvent.move (getTmpFileName f) f), fs, .ok ()⟩ := by
  induction files with
  | nil => rfl
  | cons a rest ih => simp [restorePhase, ih]

/-- claim C2: if any one of the resolved target files fails validation (it is
the current working directory, it resolves outside of it, or its `.tmp`
shadow already exists), the run leaves the filesystem untouched, never
spawns the emit command, emits no log line, and dies with an error:
validation of all files completes before any copy occurs. -/
theorem c2_validation_aborts (cfg : Config) (cmd : List String) (dryRun : Bool)
    (files : List Path) (fs0 : FS)
    (hcmd : cmd ≠ [])
    (hbad : ∃ f ∈ files, cfg.isPathCwd f = true ∨ cfg.isPathInside f = false ∨
      pathExists fs0 (getTmpFileName f) = true) :
    (runMain cfg cmd dryRun files fs0).fs = fs0 ∧
    (runMain cfg cmd dryRun files fs0).spawned = false ∧
    (runMain cfg cmd dryRun files fs0).logs = [] ∧
    ∃ e, (runMain cfg cmd dryRun files fs0).exit = .error e := by
  obtain ⟨e, he⟩ := validateFiles_error_of_bad hbad
  have hne : files ≠ [] := by
    rintro rfl
    obtain ⟨f, hf, _⟩ := hbad
    simp at hf
  refine ⟨?_, ?_, ?_, e, ?_⟩ <;> simp [runMain, hcmd, hne, he]

/-- claim C2 (witness): a concrete run with a stale `a.tmp` file present
aborts without touching anything. -/
theorem c2_validation_aborts_witness :
    (runMain ⟨fun _ => false, fun _ => true, fun fs => (fs, true)⟩ ["c"] false ["a"]
        [("a", "x"), ("a.tmp", "y")]).fs = [("a", "x"), ("a.tmp", "y")] ∧
    (runMain ⟨fun _ => false, fun _ => true, fun fs => (fs, true)⟩ ["c"] false ["a"]
        [("a", "x"), ("a.tmp", "y")]).spawned = false ∧
    (runMain ⟨fun _ => false, fun _ => true, fun fs => (fs, true)⟩ ["c"] false ["a"]
        [("a", "x"), ("a.tmp", "y")]).logs = [] ∧
    ∃ e, (runMain ⟨fun _ => false, fun _ => true, fun fs => (fs, true)⟩ ["c"] false ["a"]
        [("a", "x"), ("a.tmp", "y")]).exit = .error e :=
  c2_validation_aborts ⟨fun _ => false, fun _ => true, fun fs => (fs, true)⟩ ["c"] false
    ["a"] [("a", "x"), ("a.tmp", "y")] (by decide)
    ⟨"a", by decide, Or.inr (Or.inr (by decide))⟩

/-- claim C10: in dry-run mode, glob resolution and the per-file validation
checks are still performed for real: a dry run dies with the same
`noFilesMatched` error as a normal run when the glob matched nothing, and
with the same validation error as a normal run when some file fails a
check. -/
theorem c10_dry_run_validates (cfg : Config) (cmd : List String) (files : List Path)
    (fs0 : FS) (hcmd : cmd ≠ []) :
    (files = [] →
      (runMain cfg cmd true files fs0).exit = .error .noFilesMatched ∧
      (runMain cfg cmd false files fs0).exit = .error .noFilesMatched) ∧
    (∀ e, validateFiles cfg fs0 files = .error e →
      (runMain cfg cmd true files fs0).exit = .error e ∧
      (runMain cfg cmd false files fs0).exit = .error e) := by
  constructor
  · rintro rfl
    constructor <;> simp [runMain, hcmd]
  · intro e he
    have hne : files ≠ [] := by
      rintro rfl
      simp [validateFiles] at he
    constructor <;> simp [runMain, hcmd, hne, he]

/-- claim C10 (witness): with a stale `a.tmp` present, a dry run and a normal
run die with the same `staleTempFile` error. -/
theorem c10_dry_run_validates_witness :
    ((["a"] : List Path) = [] →
      (runMain ⟨fun _ => false, fun _ => true, fun fs => (fs, true)⟩ ["c"] true ["a"]
          [("a", "x"), ("a.tmp", "y")]).exit = .error .noFilesMatched ∧
      (runMain ⟨fun _ => false, fun _ => true, fun fs => (fs, true)⟩ ["c"] false ["a"]
          [("a", "x"), ("a.tmp", "y")]).exit = .error .noFilesMatched) ∧
    (∀ e, validateFiles ⟨fun _ => false, fun _ => true, fun fs => (fs, true)⟩
          [("a", "x"), ("a.tmp", "y")] ["a"] = .error e →
      (runMain ⟨fun _ => false, fun _ => true, fun fs => (fs, true)⟩ ["c"] true ["a"]
          [("a", "x"), ("a.tmp", "y")]).exit = .error e ∧
      (runMain ⟨fun _ => false, fun _ => true, fun fs => (fs, true)⟩ ["c"] false ["a"]
          [("a", "x"), ("a.tmp", "y")]).exit = .error e) :=
  c10_dry_run_validates ⟨fun _ => false, fun _ => true, fun fs => (fs, true)⟩ ["c"] ["a"]
    [("a", "x"), ("a.tmp", "y")] (by decide)

/-- claim C6: with the dry-run flag set, the filesystem is untouched and the
emit command is never spawned, regardless of outcome; and a dry run that
passes the preliminary checks emits exactly the copy, emit, diff and move
log lines (one per file and phase, nothing else) and exits 0. -/
theorem c6_dry_run_no_op (cfg : Config) (cmd : List String) (files : List Path)
    (fs0 : FS) :
    (runMain cfg cmd true files fs0).fs = fs0 ∧
    (runMain cfg cmd true files fs0).spawned = false ∧
    (cmd ≠ [] → files ≠ [] → validateFiles cfg fs0 files = .ok () →
      (runMain cfg cmd true files fs0).logs =
        files.map (fun f => LogEvent.copy f (getTmpFileName f)) ++
          LogEvent.emit cmd ::
            (files.map (fun f => LogEvent.diff f (getTmpFileName f)) ++
              files.map (fun f => LogEvent.move (getTmpFileName f) f)) ∧
      (runMain cfg cmd true files fs0).exit = .ok 0) := by
  by_cases hcmd : cmd = []
  · refine ⟨by simp [runMain, hcmd], by simp [runMain, hcmd], ?_⟩
    intro hc
    exact absurd hcmd hc
  · by_cases hne : files = []
    · refine ⟨by simp [runMain, hcmd, hne], by simp [runMain, hcmd, hne], ?_⟩
      intro _ hf
      exact absurd hne hf
    · cases hval : validateFiles cfg fs0 files with
      | error e =>
        refine ⟨by simp [runMain, hcmd, hne, hval], by simp [runMain, hcmd, hne, hval], ?_⟩
        intro _ _ hok
        exact Except.noConfusion hok
      | ok u =>
        cases u
        refine ⟨?_, ?_, fun _ _ _ => ⟨?_, ?_⟩⟩ <;>
          simp [runMain, hcmd, hne, hval, copyPhase_dry, tryBody, diffPhase_dry,
            restorePhase_dry]

/-- claim C6 (witness): a concrete dry run over one file leaves the
filesystem alone, spawns nothing, logs the four lines and exits 0. -/
theorem c6_dry_run_no_op_witness :
    (runMain ⟨fun _ => false, fun _ => true, fun fs => (fs, true)⟩ ["c"] true ["a"]
        [("a", "x")]).fs = [("a", "x")] ∧
    (runMain ⟨fun _ => false, fun _ => true, fun fs => (fs, true)⟩ ["c"] true ["a"]
        [("a", "x")]).spawned = false ∧
    ((["c"] : List String) ≠ [] → (["a"] : List Path) ≠ [] →
      validateFiles ⟨fun _ => false, fun _ => true, fun fs => (fs, true)⟩
        [("a", "x")] ["a"] = .ok () →
      (runMain ⟨fun _ => false, fun _ => true, fun fs => (fs, true)⟩ ["c"] true ["a"]
          [("a", "x")]).logs =
        (["a"] : List Path).map (fun f => LogEvent.copy f (getTmpFileName f)) ++
          LogEvent.emit ["c"] ::
            ((["a"] : List Path).map (fun f => LogEvent.diff f (getTmpFileName f)) ++
              (["a"] : List Path).map (fun f => LogEvent.move (getTmpFileName f) f)) ∧
      (runMain ⟨fun _ => false, fun _ => true, fun fs => (fs, true)⟩ ["c"] true ["a"]
          [("a", "x")]).exit = .ok 0) :=
  c6_dry_run_no_op ⟨fun _ => false, fun _ => true, fun fs => (fs, true)⟩ ["c"] ["a"]
    [("a", "x")]

/-- claim C8: if, during the `finally` restore loop of a non-dry run, moving
one file's shadow copy back fails (its `.tmp` source is missing), the
restores of all subsequent files are not attempted: the loop stops with
exactly the log lines of the earlier successful moves plus the failing
file's move line, the filesystem as the earlier moves left it, and the
move error. -/
theorem c8_restore_abort (pre : List Path) (f : Path) (post : List Path)
    (fs fsMid : FS) (ls : List LogEvent)
    (hpre : restorePhase false pre fs = ⟨ls, fsMid, .ok ()⟩)
    (hfail : readPath fsMid (getTmpFileName f) = none) :
    restorePhase false (pre ++ f :: post) fs =
      ⟨ls ++ [LogEvent.move (getTmpFileName f) f], fsMid,
        .error (.moveFailed (getTmpFileName f))⟩ := by
  induction pre generalizing fs ls with
  | nil =>
    rw [show restorePhase false [] fs = ⟨[], fs, .ok ()⟩ from rfl] at hpre
    rw [PhaseOut.mk.injEq] at hpre
    obtain ⟨h1, h2, -⟩ := hpre
    subst h2
    cases h1
    simp [restorePhase, moveFile, hfail]
  | cons p pre ih =>
    cases hm : moveFile fs (getTmpFileName p) p with
    | error e =>
      rw [restorePhase] at hpre
      simp only [Bool.false_eq_true, if_false, hm] at hpre
      rw [PhaseOut.mk.injEq] at hpre
      exact absurd hpre.2.2 (by simp)
    | ok fs2 =>
      rw [restorePhase] at hpre
      simp only [Bool.false_eq_true, if_false, hm] at hpre
      rw [PhaseOut.mk.injEq] at hpre
      obtain ⟨h1, h2, h3⟩ := hpre
      have hpre' : restorePhase false pre fs2 =
          ⟨(restorePhase false pre fs2).logs, fsMid, .ok ()⟩ := by
        rw [← h2, ← h3]
      have hrec := ih fs2 (restorePhase false pre fs2).logs hpre'
      rw [show (p :: pre) ++ f :: post = p :: (pre ++ f :: post) from rfl, restorePhase]
      simp only [Bool.false_eq_true, if_false, hm, hrec]
      rw [PhaseOut.mk.injEq]
      refine ⟨?_, rfl, rfl⟩
      rw [← h1]
      simp

/-- claim C8 (witness): restoring `["a", "b", "c"]` when `b.tmp` is missing
stops after `b`: `c` is never attempted. -/
theorem c8_restore_abort_witness :
    restorePhase false (["a"] ++ "b" :: ["c"]) [("a.tmp", "x")] =
      ⟨[LogEvent.move (getTmpFileName "a") "a", LogEvent.move (getTmpFileName "b") "b"],
        [("a", "x")], .error (.moveFailed (getTmpFileName "b"))⟩ :=
  c8_restore_abort ["a"] "b" ["c"] [("a.tmp", "x")] [("a", "x")]
    [LogEvent.move (getTmpFileName "a") "a"] (by rfl) (by rfl)

/-! ## Characterization of the copy, diff and restore loops of a non-dry run -/

theorem isSome_false_eq_none {o : Option String} (h : o.isSome = false) : o = none := by
  cases o with
  | none => rfl
  | some c => simp at h

theorem copyPhase_spec :
    ∀ (files : List Path) (fs : FS),
      files.Nodup →
      (∀ f ∈ files, (readPath fs f).isSome = true) →
      (∀ f ∈ files, readPath fs (getTmpFileName f) = none) →
      (copyPhase false files fs).res = .ok () ∧
      (copyPhase false files fs).logs =
        files.map (fun f => LogEvent.copy f (getTmpFileName f)) ∧
      (∀ f ∈ files,
        readPath (copyPhase false files fs).fs (getTmpFileName f) = readPath fs f) ∧
      (∀ p : Path, (∀ f ∈ files, p ≠ getTmpFileName f) →
        readPath (copyPhase false files fs).fs p = readPath fs p) := by
  intro files
  induction files with
  | nil =>
    intro fs _ _ _
    exact ⟨rfl, rfl, by simp, fun p _ => rfl⟩
  | cons a rest ih =>
    intro fs hnd hex htmp
    obtain ⟨ca, hca⟩ := Option.isSome_iff_exists.mp (hex a (by simp))
    have hstep : copyPhase false (a :: rest) fs =
        ⟨LogEvent.copy a (getTmpFileName a) ::
            (copyPhase false rest (writePath fs (getTmpFileName a) ca)).logs,
          (copyPhase false rest (writePath fs (getTmpFileName a) ca)).fs,
          (copyPhase false rest (writePath fs (getTmpFileName a) ca)).res⟩ := by
      simp [copyPhase, copyFile, hca]
    have hanotin : a ∉ rest := (List.nodup_cons.mp hnd).1
    have hndr : rest.Nodup := (List.nodup_cons.mp hnd).2
    have hgne : ∀ g ∈ rest, g ≠ getTmpFileName a := by
      intro g hg he
      have h1 := hex g (by simp [hg])
      have h2 := htmp a (by simp)
      rw [← he] at h2
      rw [h2] at h1
      simp at h1
    have htmpne : ∀ g ∈ rest, getTmpFileName g ≠ getTmpFileName a := by
      intro g hg he
      exact hanotin ((getTmpFileName_injective he) ▸ hg)
    have hex' : ∀ g ∈ rest, (readPath (writePath fs (getTmpFileName a) ca) g).isSome = true := by
      intro g hg
      rw [readPath_writePath_ne _ _ _ _ (hgne g hg)]
      exact hex g (by simp [hg])
    have htmp' : ∀ g ∈ rest,
        readPath (writePath fs (getTmpFileName a) ca) (getTmpFileName g) = none := by
      intro g hg
      rw [readPath_writePath_ne _ _ _ _ (htmpne g hg)]
      exact htmp g (by simp [hg])
    obtain ⟨ihres, ihlogs, ihtmp, ihother⟩ := ih (writePath fs (getTmpFileName a) ca) hndr hex' htmp'
    refine ⟨?_, ?_, ?_, ?_⟩
    · rw [hstep]
      exact ihres
    · rw [hstep]
      simp [ihlogs]
    · intro f hf
      rcases List.mem_cons.mp hf with rfl | hf'
      · rw [hstep]
        have hav : readPath (copyPhase false rest (writePath fs (getTmpFileName f) ca)).fs
            (getTmpFileName f) = readPath (writePath fs (getTmpFileName f) ca) (getTmpFileName f) := by
          apply ihother
          intro g hg
          exact Ne.symm (htmpne g hg)
        rw [hav, readPath_writePath_self, hca]
      · rw [hstep]
        rw [ihtmp f hf', readPath_writePath_ne _ _ _ _ (hgne f hf')]
    · intro p hp
      rw [hstep]
      have hp' : ∀ f ∈ rest, p ≠ getTmpFileName f := fun f hf => hp f (by simp [hf])
      rw [ihother p hp', readPath_writePath_ne _ _ _ _ (hp a (by simp))]

theorem restorePhase_spec :
    ∀ (files : List Path) (fs : FS),
      files.Nodup →
      (∀ f ∈ files, ∀ g ∈ files, getTmpFileName f ≠ g) →
      (∀ f ∈ files, (readPath fs (getTmpFileName f)).isSome = true) →
      (restorePhase false files fs).res = .ok () ∧
      (restorePhase false files fs).logs =
        files.map (fun f => LogEvent.move (getTmpFileName f) f) ∧
      (∀ f ∈ files,
        readPath (restorePhase false files fs).fs f = readPath fs (getTmpFileName f)) ∧
      (∀ f ∈ files,
        readPath (restorePhase false files fs).fs (getTmpFileName f) = none) ∧
      (∀ p : Path, (∀ f ∈ files, p ≠ f ∧ p ≠ getTmpFileName f) →
        readPath (restorePhase false files fs).fs p = readPath fs p) := by
  intro files
  induction files with
  | nil =>
    intro fs _ _ _
    exact ⟨rfl, rfl, by simp, by simp, fun p _ => rfl⟩
  | cons a rest ih =>
    intro fs hnd hsep hread
    obtain ⟨ca, hca⟩ := Option.isSome_iff_exists.mp (hread a (by simp))
    have hstep : restorePhase false (a :: rest) fs =
        ⟨LogEvent.move (getTmpFileName a) a ::
            (restorePhase false rest (removePath (writePath fs a ca) (getTmpFileName a))).logs,
          (restorePhase false rest (removePath (writePath fs a ca) (getTmpFileName a))).fs,
          (restorePhase false rest (removePath (writePath fs a ca) (getTmpFileName a))).res⟩ := by
      simp [restorePhase, moveFile, hca]
    have hanotin : a ∉ rest := (List.nodup_cons.mp hnd).1
    have hndr : rest.Nodup := (List.nodup_cons.mp hnd).2
    have hsepr : ∀ f ∈ rest, ∀ g ∈ rest, getTmpFileName f ≠ g := by
      intro f hf g hg
      exact hsep f (by simp [hf]) g (by simp [hg])
    have htga : ∀ g ∈ rest, getTmpFileName g ≠ getTmpFileName a := by
      intro g hg he
      exact hanotin ((getTmpFileName_injective he) ▸ hg)
    have htga' : ∀ g ∈ rest, getTmpFileName g ≠ a := by
      intro g hg
      exact hsep g (by simp [hg]) a (by simp)
    have hread' : ∀ g ∈ rest,
        (readPath (removePath (writePath fs a ca) (getTmpFileName a)) (getTmpFileName g)).isSome
          = true := by
      intro g hg
      rw [readPath_removePath_ne _ _ _ (htga g hg),
        readPath_writePath_ne _ _ _ _ (htga' g hg)]
      exact hread g (by simp [hg])
    obtain ⟨ihres, ihlogs, ihfile, ihtmp, ihother⟩ :=
      ih (removePath (writePath fs a ca) (getTmpFileName a)) hndr hsepr hread'
    refine ⟨?_, ?_, ?_, ?_, ?_⟩
    · rw [hstep]
      exact ihres
    · rw [hstep]
      simp [ihlogs]
    · intro f hf
      rcases List.mem_cons.mp hf with rfl | hf'
      · rw [hstep]
        have hav : readPath
            (restorePhase false rest (removePath (writePath fs f ca) (getTmpFileName f))).fs f =
            readPath (removePath (writePath fs f ca) (getTmpFileName f)) f := by
          apply ihother
          intro g hg
          refine ⟨fun he => hanotin (by rw [he]; exact hg), fun he => ?_⟩
          exact htga' g hg he.symm
        rw [hav, readPath_removePath_ne _ _ _ (Ne.symm (getTmpFileName_ne_self f)),
          readPath_writePath_self, hca]
      · rw [hstep]
        rw [ihfile f hf', readPath_removePath_ne _ _ _ (htga f hf'),
          readPath_writePath_ne _ _ _ _ (htga' f hf')]
    · intro f hf
      rcases List.mem_cons.mp hf with rfl | hf'
      · rw [hstep]
        have hav : readPath
            (restorePhase false rest (removePath (writePath fs f ca) (getTmpFileName f))).fs
              (getTmpFileName f) =
            readPath (removePath (writePath fs f ca) (getTmpFileName f)) (getTmpFileName f) := by
          apply ihother
          intro g hg
          exact ⟨hsep f (by simp) g (by simp [hg]), fun he => htga g hg he.symm⟩
        rw [hav, readPath_removePath_self]
      · rw [hstep]
        exact ihtmp f hf'
    · intro p hp
      rw [hstep]
      have hp' : ∀ f ∈ rest, p ≠ f ∧ p ≠ getTmpFileName f := fun f hf => hp f (by simp [hf])
      rw [ihother p hp', readPath_removePath_ne _ _ _ (hp a (by simp)).2,
        readPath_writePath_ne _ _ _ _ (hp a (by simp)).1]

theorem diffPhase_spec :
    ∀ (files : List Path) (fs : FS) (b : Bool),
      (∀ f ∈ files, (readPath fs f).isSome = true ∧
        (readPath fs (getTmpFileName f)).isSome = true) →
      diffPhase false files fs b =
        ⟨files.flatMap (fun f =>
            LogEvent.diff f (getTmpFileName f) ::
              (if fileChanged fs f then
                [LogEvent.error ("Found diff in \"" ++ f ++ "\"."),
                  LogEvent.patch (getTmpFileName f) f (contentOf fs (getTmpFileName f))
                    (contentOf fs f)]
              else [])),
          .ok (b || files.any (fileChanged fs))⟩ := by
  intro files
  induction files with
  | nil =>
    intro fs b _
    simp [diffPhase]
  | cons a rest ih =>
    intro fs b hreads
    obtain ⟨ha1, ha2⟩ := hreads a (by simp)
    obtain ⟨fc, hfc⟩ := Option.isSome_iff_exists.mp ha1
    obtain ⟨tc, htc⟩ := Option.isSome_iff_exists.mp ha2
    have hreads' : ∀ f ∈ rest, (readPath fs f).isSome = true ∧
        (readPath fs (getTmpFileName f)).isSome = true := fun f hf => hreads f (by simp [hf])
    by_cases hch : 1 < (diffLines tc fc).length
    · have hch' : fileChanged fs a = true := by
        simp only [fileChanged, contentOf, hfc, htc, Option.getD_some]
        exact decide_eq_true hch
      simp [diffPhase, readFile, hfc, htc, hch, ih fs true hreads', hch', contentOf]
    · have hch' : fileChanged fs a = false := by
        simp only [fileChanged, contentOf, hfc, htc, Option.getD_some]
        exact decide_eq_false hch
      simp [diffPhase, readFile, hfc, htc, hch, ih fs b hreads', hch']

/-! ## The try body and the composition of phases in a non-dry run -/

theorem tryBody_fs (cfg : Config) (files : List Path) (fs : FS) :
    (tryBody cfg false files fs).fs = (cfg.emit fs).1 := by
  by_cases h : (cfg.emit fs).2 <;> simp [tryBody, h]

theorem tryBody_spawned (cfg : Config) (files : List Path) (fs : FS) :
    (tryBody cfg false files fs).spawned = true := by
  by_cases h : (cfg.emit fs).2 <;> simp [tryBody, h]

theorem tryBody_emit_ok (cfg : Config) (files : List Path) (fs : FS)
    (h : (cfg.emit fs).2 = true) :
    tryBody cfg false files fs =
      ⟨(diffPhase false files (cfg.emit fs).1 false).logs, (cfg.emit fs).1, true,
        (diffPhase false files (cfg.emit fs).1 false).res⟩ := by
  simp [tryBody, h]

theorem tryBody_emit_fail (cfg : Config) (files : List Path) (fs : FS)
    (h : (cfg.emit fs).2 = false) :
    tryBody cfg false files fs = ⟨[], (cfg.emit fs).1, true, .error .emitFailed⟩ := by
  simp [tryBody, h]

theorem validate_tmp_none {cfg : Config} {fs0 : FS} {files : List Path}
    (hval : validateFiles cfg fs0 files = .ok ()) :
    ∀ f ∈ files, readPath fs0 (getTmpFileName f) = none := by
  intro f hf
  have h := (validateFiles_ok_spec hval f hf).2.2
  exact isSome_false_eq_none (by simpa [pathExists] using h)

theorem sep_of_validate {cfg : Config} {fs0 : FS} {files : List Path}
    (hval : validateFiles cfg fs0 files = .ok ())
    (hex : ∀ f ∈ files, (readPath fs0 f).isSome = true) :
    ∀ f ∈ files, ∀ g ∈ files, getTmpFileName f ≠ g := by
  intro f hf g hg he
  have h1 := validate_tmp_none hval f hf
  have h2 := hex g hg
  rw [← he, h1] at h2
  simp at h2

/-- The shape of every non-dry run that passes validation, with existing and
distinct target files and an emit command that leaves the shadow copies
alone: the copy loop succeeds, the `finally` restore loop runs on the
filesystem the emit command produced and succeeds, every target is back at
its pre-run contents, every shadow copy is gone, and the exit status is
decided by the try body's outcome alone. -/
theorem runMain_nonDry_spec (cfg : Config) (cmd : List String) (files : List Path) (fs0 : FS)
    (hcmd : cmd ≠ []) (hfiles : files ≠ [])
    (hnd : files.Nodup)
    (hex : ∀ f ∈ files, (readPath fs0 f).isSome = true)
    (hval : validateFiles cfg fs0 files = .ok ())
    (hpres : ∀ f ∈ files,
      readPath (cfg.emit (copyPhase false files fs0).fs).1 (getTmpFileName f) =
        readPath (copyPhase false files fs0).fs (getTmpFileName f)) :
    runMain cfg cmd false files fs0 =
      ⟨(restorePhase false files (cfg.emit (copyPhase false files fs0).fs).1).fs,
        (copyPhase false files fs0).logs ++ LogEvent.emit cmd ::
          ((tryBody cfg false files (copyPhase false files fs0).fs).logs ++
            (restorePhase false files (cfg.emit (copyPhase false files fs0).fs).1).logs),
        true,
        match (tryBody cfg false files (copyPhase false files fs0).fs).res with
        | .error e => .error e
        | .ok diffFound => .ok (if diffFound then 1 else 0)⟩ ∧
      (∀ f ∈ files,
        readPath (restorePhase false files (cfg.emit (copyPhase false files fs0).fs).1).fs f =
          readPath fs0 f ∧
        readPath (restorePhase false files (cfg.emit (copyPhase false files fs0).fs).1).fs
          (getTmpFileName f) = none) ∧
      (restorePhase false files (cfg.emit (copyPhase false files fs0).fs).1).logs =
        files.map (fun f => LogEvent.move (getTmpFileName f) f) := by
  have htmp := validate_tmp_none hval
  have hsep := sep_of_validate hval hex
  obtain ⟨cres, clogs, ctmp, cother⟩ := copyPhase_spec files fs0 hnd hex htmp
  have hread : ∀ f ∈ files,
      (readPath (cfg.emit (copyPhase false files fs0).fs).1 (getTmpFileName f)).isSome
        = true := by
    intro f hf
    rw [hpres f hf, ctmp f hf]
    exact hex f hf
  obtain ⟨rres, rlogs, rfile, rtmp, rother⟩ :=
    restorePhase_spec files (cfg.emit (copyPhase false files fs0).fs).1 hnd hsep hread
  have hfix : ∀ f ∈ files,
      readPath (restorePhase false files (cfg.emit (copyPhase false files fs0).fs).1).fs f =
        readPath fs0 f := by
    intro f hf
    rw [rfile f hf, hpres f hf, ctmp f hf]
  refine ⟨?_, fun f hf => ⟨hfix f hf, rtmp f hf⟩, rlogs⟩
  have htfs := tryBody_fs cfg files (copyPhase false files fs0).fs
  have hts := tryBody_spawned cfg files (copyPhase false files fs0).fs
  simp only [runMain, if_neg hcmd, if_neg hfiles, hval, cres, htfs, hts, rres]

/-- claim C1: for every non-dry run that reaches the emit-execution phase
(the command is present, globbing found existing, distinct files, all
validation passed — so all shadow copies are created) and whose emit
command leaves the shadow copies' contents alone, the contents of every
target file after the process exits equal its contents before the process
started, and its `.tmp` shadow copy no longer exists — whatever the emit
command did to the targets and whether the try body succeeded or failed. -/
theorem c1_restoration (cfg : Config) (cmd : List String) (files : List Path) (fs0 : FS)
    (hcmd : cmd ≠ [])
    (hnd : files.Nodup)
    (hex : ∀ f ∈ files, (readPath fs0 f).isSome = true)
    (hval : validateFiles cfg fs0 files = .ok ())
    (hpres : ∀ f ∈ files, readPath (emitFS cfg files fs0) (getTmpFileName f) =
      readPath (copyFS files fs0) (getTmpFileName f)) :
    ∀ f ∈ files,
      readPath (runMain cfg cmd false files fs0).fs f = readPath fs0 f ∧
      readPath (runMain cfg cmd false files fs0).fs (getTmpFileName f) = none := by
  by_cases hfiles : files = []
  · subst hfiles
    intro f hf
    simp at hf
  · simp only [emitFS, copyFS] at hpres
    obtain ⟨heq, hrest, -⟩ :=
      runMain_nonDry_spec cfg cmd files fs0 hcmd hfiles hnd hex hval hpres
    intro f hf
    rw [heq]
    exact hrest f hf

/-- claim C1 (witness): a concrete non-dry run with one target file and an
emit command that does nothing. -/
theorem c1_restoration_witness :
    readPath (runMain ⟨fun _ => false, fun _ => true, fun fs => (fs, true)⟩ ["c"] false
        ["a"] [("a", "x")]).fs "a" = readPath [("a", "x")] "a" ∧
    readPath (runMain ⟨fun _ => false, fun _ => true, fun fs => (fs, true)⟩ ["c"] false
        ["a"] [("a", "x")]).fs (getTmpFileName "a") = none :=
  c1_restoration ⟨fun _ => false, fun _ => true, fun fs => (fs, true)⟩ ["c"] ["a"]
    [("a", "x")] (by decide) (by decide) (by decide) (by decide) (by decide) "a"
    (by decide)

/-- claim C5: if the emit command of a non-dry run exits non-zero or fails to
start, the failure propagates — the run terminates with the fatal
`emitFailed` error rather than having it swallowed — but the restoration
step runs before the failure is re-raised: the move-back of every shadow
copy is logged, every target file is back at its pre-run contents, and
every shadow copy is gone. -/
theorem c5_emit_failure (cfg : Config) (cmd : List String) (files : List Path) (fs0 : FS)
    (hcmd : cmd ≠ []) (hfiles : files ≠ [])
    (hnd : files.Nodup)
    (hex : ∀ f ∈ files, (readPath fs0 f).isSome = true)
    (hval : validateFiles cfg fs0 files = .ok ())
    (hpres : ∀ f ∈ files, readPath (emitFS cfg files fs0) (getTmpFileName f) =
      readPath (copyFS files fs0) (getTmpFileName f))
    (hfail : (cfg.emit (copyFS files fs0)).2 = false) :
    (runMain cfg cmd false files fs0).exit = .error .emitFailed ∧
    (runMain cfg cmd false files fs0).logs =
      (copyPhase false files fs0).logs ++ LogEvent.emit cmd ::
        files.map (fun f => LogEvent.move (getTmpFileName f) f) ∧
    ∀ f ∈ files,
      readPath (runMain cfg cmd false files fs0).fs f = readPath fs0 f ∧
      readPath (runMain cfg cmd false files fs0).fs (getTmpFileName f) = none := by
  simp only [emitFS, copyFS] at hpres hfail
  obtain ⟨heq, hrest, hrlogs⟩ :=
    runMain_nonDry_spec cfg cmd files fs0 hcmd hfiles hnd hex hval hpres
  have htb := tryBody_emit_fail cfg files (copyPhase false files fs0).fs hfail
  refine ⟨?_, ?_, fun f hf => by rw [heq]; exact hrest f hf⟩
  · rw [heq]
    simp [htb]
  · rw [heq]
    simp [htb, hrlogs]

/-- claim C5 (witness): a concrete run whose emit command fails leaves the
target restored, the shadow copy gone, and dies with `emitFailed`. -/
theorem c5_emit_failure_witness :
    (runMain ⟨fun _ => false, fun _ => true, fun fs => (fs, false)⟩ ["c"] false ["a"]
        [("a", "x")]).exit = .error .emitFailed ∧
    (runMain ⟨fun _ => false, fun _ => true, fun fs => (fs, false)⟩ ["c"] false ["a"]
        [("a", "x")]).logs =
      (copyPhase false ["a"] [("a", "x")]).logs ++ LogEvent.emit ["c"] ::
        (["a"] : List Path).map (fun f => LogEvent.move (getTmpFileName f) f) ∧
    ∀ f ∈ (["a"] : List Path),
      readPath (runMain ⟨fun _ => false, fun _ => true, fun fs => (fs, false)⟩ ["c"] false
          ["a"] [("a", "x")]).fs f = readPath [("a", "x")] f ∧
      readPath (runMain ⟨fun _ => false, fun _ => true, fun fs => (fs, false)⟩ ["c"] false
          ["a"] [("a", "x")]).fs (getTmpFileName f) = none :=
  c5_emit_failure ⟨fun _ => false, fun _ => true, fun fs => (fs, false)⟩ ["c"] ["a"]
    [("a", "x")] (by decide) (by decide) (by decide) (by decide) (by decide) (by decide)
    (by decide)

/-- claim C3 (counterexample): the claim fails as stated.  In a non-dry run
over the single target `"a"` whose pre-run contents are empty, with an emit
command that succeeds after writing `"b"` into the file, the command wrote
content that differs from the pre-run contents, yet the process exits with
status 0: `diffLines` reports a single pure-insertion component for the
pair `("", "b")`, so the script's `diff.length > 1` test does not fire. -/
theorem c3_counterexample :
    (runMain ⟨fun _ => false, fun _ => true, fun fs => (writePath fs "a" "b", true)⟩ ["c"]
        false ["a"] [("a", "")]).exit = .ok 0 ∧
    readPath (emitFS ⟨fun _ => false, fun _ => true, fun fs => (writePath fs "a" "b", true)⟩
        ["a"] [("a", "")]) "a" ≠ readPath [("a", "")] "a" := by
  constructor
  · rfl
  · decide

/-- claim C3 (amended): for every non-dry run whose emit command completes
successfully (with validation passed, existing distinct targets, shadow
copies untouched by the command, and every post-run target readable), and
in which no target file's contents went between empty and nonempty: the
process exits with status 1 — set without throwing, after restoration
completed — exactly when the command wrote content to some target that
differs from that file's pre-run contents, and with status 0 when no
target's contents changed; and a unified patch is printed for each changed
file.  (Without the empty/nonempty proviso the exit code can stay 0 on a
changed file, see the counterexample.) -/
theorem c3_drift_exit (cfg : Config) (cmd : List String) (files : List Path) (fs0 : FS)
    (hcmd : cmd ≠ []) (hfiles : files ≠ [])
    (hnd : files.Nodup)
    (hex : ∀ f ∈ files, (readPath fs0 f).isSome = true)
    (hval : validateFiles cfg fs0 files = .ok ())
    (hpres : ∀ f ∈ files, readPath (emitFS cfg files fs0) (getTmpFileName f) =
      readPath (copyFS files fs0) (getTmpFileName f))
    (hok : (cfg.emit (copyFS files fs0)).2 = true)
    (hpost : ∀ f ∈ files, (readPath (emitFS cfg files fs0) f).isSome = true)
    (hnz : ∀ f ∈ files,
      (contentOf fs0 f = "" ↔ contentOf (emitFS cfg files fs0) f = "")) :
    (runMain cfg cmd false files fs0).exit =
      .ok (if ∃ f ∈ files, readPath (emitFS cfg files fs0) f ≠ readPath fs0 f then 1
        else 0) ∧
    (∀ f ∈ files, readPath (emitFS cfg files fs0) f ≠ readPath fs0 f →
      LogEvent.patch (getTmpFileName f) f (contentOf fs0 f)
          (contentOf (emitFS cfg files fs0) f)
        ∈ (runMain cfg cmd false files fs0).logs) := by
  simp only [emitFS, copyFS] at hpres hok hpost hnz ⊢
  have htmp := validate_tmp_none hval
  obtain ⟨cres, clogs, ctmp, cother⟩ := copyPhase_spec files fs0 hnd hex htmp
  obtain ⟨heq, -, -⟩ :=
    runMain_nonDry_spec cfg cmd files fs0 hcmd hfiles hnd hex hval hpres
  have htb := tryBody_emit_ok cfg files (copyPhase false files fs0).fs hok
  have hcc : ∀ f ∈ files,
      contentOf (cfg.emit (copyPhase false files fs0).fs).1 (getTmpFileName f) =
        contentOf fs0 f := by
    intro f hf
    rw [contentOf, contentOf, hpres f hf, ctmp f hf]
  have hreads : ∀ f ∈ files,
      (readPath (cfg.emit (copyPhase false files fs0).fs).1 f).isSome = true ∧
      (readPath (cfg.emit (copyPhase false files fs0).fs).1 (getTmpFileName f)).isSome
        = true := by
    intro f hf
    refine ⟨hpost f hf, ?_⟩
    rw [hpres f hf, ctmp f hf]
    exact hex f hf
  have hdp := diffPhase_spec files (cfg.emit (copyPhase false files fs0).fs).1 false hreads
  have hbridge : ∀ f ∈ files,
      (fileChanged (cfg.emit (copyPhase false files fs0).fs).1 f = true ↔
        readPath (cfg.emit (copyPhase false files fs0).fs).1 f ≠ readPath fs0 f) := by
    intro f hf
    obtain ⟨a, ha⟩ := Option.isSome_iff_exists.mp (hex f hf)
    obtain ⟨b, hb⟩ := Option.isSome_iff_exists.mp (hpost f hf)
    have hiff := c4_diff_length_iff
      (contentOf (cfg.emit (copyPhase false files fs0).fs).1 (getTmpFileName f))
      (contentOf (cfg.emit (copyPhase false files fs0).fs).1 f)
      (by rw [hcc f hf]; exact hnz f hf)
    simp only [fileChanged, decide_eq_true_eq]
    rw [hiff, hcc f hf]
    simp only [contentOf, ha, hb, Option.getD_some]
    constructor
    · intro h1 h2
      injection h2 with h3
      exact h1 h3.symm
    · intro h1 h2
      exact h1 (by rw [h2])
  have hany : (files.any (fileChanged (cfg.emit (copyPhase false files fs0).fs).1) = true) ↔
      (∃ f ∈ files,
        readPath (cfg.emit (copyPhase false files fs0).fs).1 f ≠ readPath fs0 f) := by
    rw [List.any_eq_true]
    constructor
    · rintro ⟨f, hf, hc⟩
      exact ⟨f, hf, (hbridge f hf).mp hc⟩
    · rintro ⟨f, hf, hc⟩
      exact ⟨f, hf, (hbridge f hf).mpr hc⟩
  constructor
  · rw [heq]
    simp only [htb, hdp, Bool.false_or]
    exact congrArg Except.ok (if_congr hany rfl rfl)
  · intro f hf hne
    have hch : fileChanged (cfg.emit (copyPhase false files fs0).fs).1 f = true :=
      (hbridge f hf).mpr hne
    rw [heq]
    simp only [htb, hdp]
    refine List.mem_append.mpr (Or.inr ?_)
    refine List.mem_cons.mpr (Or.inr ?_)
    refine List.mem_append.mpr (Or.inl ?_)
    refine List.mem_flatMap.mpr ⟨f, hf, ?_⟩
    simp [hch, hcc f hf]

/-- claim C3 (witness): a concrete drifting run: the emit command rewrites
the sole target from `"x\n"` to `"y\n"`. -/
theorem c3_drift_exit_witness :
    (runMain ⟨fun _ => false, fun _ => true, fun fs => (writePath fs "a" "y\n", true)⟩
        ["c"] false ["a"] [("a", "x\n")]).exit =
      .ok (if ∃ f ∈ (["a"] : List Path),
          readPath (emitFS ⟨fun _ => false, fun _ => true,
              fun fs => (writePath fs "a" "y\n", true)⟩ ["a"] [("a", "x\n")]) f ≠
            readPath [("a", "x\n")] f then 1
        else 0) ∧
    (∀ f ∈ (["a"] : List Path),
      readPath (emitFS ⟨fun _ => false, fun _ => true,
          fun fs => (writePath fs "a" "y\n", true)⟩ ["a"] [("a", "x\n")]) f ≠
        readPath [("a", "x\n")] f →
      LogEvent.patch (getTmpFileName f) f (contentOf [("a", "x\n")] f)
          (contentOf (emitFS ⟨fun _ => false, fun _ => true,
            fun fs => (writePath fs "a" "y\n", true)⟩ ["a"] [("a", "x\n")]) f)
        ∈ (runMain ⟨fun _ => false, fun _ => true, fun fs => (writePath fs "a" "y\n", true)⟩
            ["c"] false ["a"] [("a", "x\n")]).logs) :=
  c3_drift_exit ⟨fun _ => false, fun _ => true, fun fs => (writePath fs "a" "y\n", true)⟩
    ["c"] ["a"] [("a", "x\n")] (by decide) (by decide) (by decide) (by decide) (by decide)
    (by decide) (by decide) (by decide) (by decide)

/-! ## No move log line is produced outside the restore loop -/

theorem copyPhase_no_move (d : Bool) :
    ∀ (files : List Path) (fs : FS) (t g : Path),
      LogEvent.move t g ∉ (copyPhase d files fs).logs := by
  intro files
  induction files with
  | nil =>
    intro fs t g
    simp [copyPhase]
  | cons a rest ih =>
    intro fs t g
    by_cases hd : d = true
    · subst hd
      simp only [copyPhase, if_true, List.mem_cons]
      rintro (h | h)
      · exact LogEvent.noConfusion h
      · exact ih fs t g h
    · have hd' : d = false := by simpa using hd
      subst hd'
      cases hc : copyFile fs a (getTmpFileName a) with
      | error e =>
        simp [copyPhase, hc]
      | ok fs2 =>
        simp only [copyPhase, hc, Bool.false_eq_true, if_false, List.mem_cons]
        rintro (h | h)
        · exact LogEvent.noConfusion h
        · exact ih fs2 t g h

theorem diffPhase_no_move (d : Bool) :
    ∀ (files : List Path) (fs : FS) (b : Bool) (t g : Path),
      LogEvent.move t g ∉ (diffPhase d files fs b).logs := by
  intro files
  induction files with
  | nil =>
    intro fs b t g
    simp [diffPhase]
  | cons a rest ih =>
    intro fs b t g
    by_cases hd : d = true
    · subst hd
      simp only [diffPhase, if_true, List.mem_cons]
      rintro (h | h)
      · exact LogEvent.noConfusion h
      · exact ih fs b t g h
    · have hd' : d = false := by simpa using hd
      subst hd'
      cases h1 : readFile fs a with
      | error e =>
        simp [diffPhase, h1]
      | ok fc =>
        cases h2 : readFile fs (getTmpFileName a) with
        | error e =>
          simp [diffPhase, h1, h2]
        | ok tc =>
          by_cases hch : 1 < (diffLines tc fc).length
          · simp only [diffPhase, h1, h2, hch, Bool.false_eq_true, if_false, if_true,
              List.mem_cons]
            rintro (h | h | h | h)
            · exact LogEvent.noConfusion h
            · exact LogEvent.noConfusion h
            · exact LogEvent.noConfusion h
            · exact ih fs true t g h
          · simp only [diffPhase, h1, h2, hch, Bool.false_eq_true, if_false, List.mem_cons]
            rintro (h | h)
            · exact LogEvent.noConfusion h
            · exact ih fs b t g h

theorem tryBody_no_move (cfg : Config) (d : Bool) (files : List Path) (fs : FS)
    (t g : Path) : LogEvent.move t g ∉ (tryBody cfg d files fs).logs := by
  by_cases hd : d = true
  · subst hd
    simp only [tryBody, if_true]
    exact diffPhase_no_move true files fs false t g
  · have hd' : d = false := by simpa using hd
    subst hd'
    by_cases he : (cfg.emit fs).2
    · simp only [tryBody, he, Bool.false_eq_true, if_false, if_true]
      exact diffPhase_no_move false files (cfg.emit fs).1 false t g
    · simp only [tryBody, he, Bool.false_eq_true, if_false]
      simp

/-- claim C7 (counterexample): the claim fails as stated.  In a non-dry run
over targets `["a", "b"]` where `"a"` exists but `"b"` does not (so the
copy of `"b"` fails after the shadow copy of `"a"` was already created),
the error occurs during the snapshot phase itself, the cleanup never runs
(the copy loop sits outside the `try`/`finally`), and the created shadow
copy `a.tmp` is left on disk at exit, never removed. -/
theorem c7_counterexample :
    readPath (runMain ⟨fun _ => false, fun _ => true, fun fs => (fs, true)⟩ ["c"] false
        ["a", "b"] [("a", "x")]).fs (getTmpFileName "a") = some "x" ∧
    (runMain ⟨fun _ => false, fun _ => true, fun fs => (fs, true)⟩ ["c"] false ["a", "b"]
        [("a", "x")]).exit = .error (.copyFailed "b") ∧
    List.count (LogEvent.move (getTmpFileName "a") "a")
      (runMain ⟨fun _ => false, fun _ => true, fun fs => (fs, true)⟩ ["c"] false ["a", "b"]
        [("a", "x")]).logs = 0 := by
  refine ⟨rfl, rfl, by decide⟩

/-- claim C7 (amended): shadow copies are created only strictly after all
files passed validation (a run whose validation fails leaves the
filesystem untouched); and once the snapshot phase has completed, every
shadow copy is removed exactly once — its `.tmp` path is gone at exit and
its move-back is logged exactly once — in a cleanup phase that runs even
when the emit command or the comparison errors.  However, an error during
the snapshot (copy) phase itself propagates without any cleanup, leaving
the already-created shadow copies on disk (see the counterexample). -/
theorem c7_cleanup_once (cfg : Config) (cmd : List String) (files : List Path) (fs0 : FS)
    (hcmd : cmd ≠ [])
    (hnd : files.Nodup)
    (hex : ∀ f ∈ files, (readPath fs0 f).isSome = true)
    (hval : validateFiles cfg fs0 files = .ok ())
    (hpres : ∀ f ∈ files, readPath (emitFS cfg files fs0) (getTmpFileName f) =
      readPath (copyFS files fs0) (getTmpFileName f)) :
    (∀ (cfg2 : Config) (d : Bool) (e : Err), validateFiles cfg2 fs0 files = .error e →
      (runMain cfg2 cmd d files fs0).fs = fs0) ∧
    ∀ f ∈ files,
      readPath (runMain cfg cmd false files fs0).fs (getTmpFileName f) = none ∧
      List.count (LogEvent.move (getTmpFileName f) f)
        (runMain cfg cmd false files fs0).logs = 1 := by
  constructor
  · intro cfg2 d e he
    have hne : files ≠ [] := by
      rintro rfl
      simp [validateFiles] at he
    simp [runMain, hcmd, hne, he]
  · by_cases hfiles : files = []
    · subst hfiles
      intro f hf
      simp at hf
    · simp only [emitFS, copyFS] at hpres
      obtain ⟨heq, hrest, hrlogs⟩ :=
        runMain_nonDry_spec cfg cmd files fs0 hcmd hfiles hnd hex hval hpres
      intro f hf
      refine ⟨by rw [heq]; exact (hrest f hf).2, ?_⟩
      rw [heq]
      have hc0 : List.count (LogEvent.move (getTmpFileName f) f)
          (copyPhase false files fs0).logs = 0 :=
        List.count_eq_zero.mpr (copyPhase_no_move false files fs0 _ _)
      have ht0 : List.count (LogEvent.move (getTmpFileName f) f)
          (tryBody cfg false files (copyPhase false files fs0).fs).logs = 0 :=
        List.count_eq_zero.mpr (tryBody_no_move cfg false files _ _ _)
      have hr1 : List.count (LogEvent.move (getTmpFileName f) f)
          (restorePhase false files (cfg.emit (copyPhase false files fs0).fs).1).logs
            = 1 := by
        rw [hrlogs]
        apply List.count_eq_one_of_mem
        · refine List.Nodup.map ?_ hnd
          intro x y hxy
          injection hxy with h1 h2
        · exact List.mem_map.mpr ⟨f, hf, rfl⟩
      have hne : LogEvent.move (getTmpFileName f) f ≠ LogEvent.emit cmd := by
        simp
      simp only [List.count_append, List.count_cons_of_ne hne, hc0, ht0, hr1]

/-- claim C7 (witness): the amended statement at a concrete clean run over
one file with an emit command that does nothing. -/
theorem c7_cleanup_once_witness :
    (∀ (cfg2 : Config) (d : Bool) (e : Err),
      validateFiles cfg2 [("a", "x")] ["a"] = .error e →
      (runMain cfg2 ["c"] d ["a"] [("a", "x")]).fs = [("a", "x")]) ∧
    ∀ f ∈ (["a"] : List Path),
      readPath (runMain ⟨fun _ => false, fun _ => true, fun fs => (fs, true)⟩ ["c"] false
          ["a"] [("a", "x")]).fs (getTmpFileName f) = none ∧
      List.count (LogEvent.move (getTmpFileName f) f)
        (runMain ⟨fun _ => false, fun _ => true, fun fs => (fs, true)⟩ ["c"] false ["a"]
          [("a", "x")]).logs = 1 :=
  c7_cleanup_once ⟨fun _ => false, fun _ => true, fun fs => (fs, true)⟩ ["c"] ["a"]
    [("a", "x")] (by decide) (by decide) (by decide) (by decide) (by decide)

/-- claim C9: the compare operation examines every target file in resolution
order and does not stop at the first drift: its log output contains, for
each file in order, that file's diff line followed — exactly when the file
is marked changed — by the error line and the unified patch for that file,
and its result is the `diffFound` flag accumulated across the whole list
(true if and only if some file changed), which is what the exit code is
later decided from. -/
theorem c9_diff_examines_all (files : List Path) (fs : FS)
    (hreads : ∀ f ∈ files, (readPath fs f).isSome = true ∧
      (readPath fs (getTmpFileName f)).isSome = true) :
    diffPhase false files fs false =
      ⟨files.flatMap (fun f =>
          LogEvent.diff f (getTmpFileName f) ::
            (if fileChanged fs f then
              [LogEvent.error ("Found diff in \"" ++ f ++ "\"."),
                LogEvent.patch (getTmpFileName f) f (contentOf fs (getTmpFileName f))
                  (contentOf fs f)]
            else [])),
        .ok (files.any (fileChanged fs))⟩ := by
  have h := diffPhase_spec files fs false hreads
  simpa using h

/-- claim C9 (witness): two files, the first unchanged and the second
changed: both are examined, the patch of the second is printed, and the
accumulated flag is true. -/
theorem c9_diff_examines_all_witness :
    diffPhase false ["a", "b"]
        [("a", "x"), ("a.tmp", "x"), ("b", "y2\n"), ("b.tmp", "y1\n")] false =
      ⟨(["a", "b"] : List Path).flatMap (fun f =>
          LogEvent.diff f (getTmpFileName f) ::
            (if fileChanged [("a", "x"), ("a.tmp", "x"), ("b", "y2\n"), ("b.tmp", "y1\n")] f
              then
              [LogEvent.error ("Found diff in \"" ++ f ++ "\"."),
                LogEvent.patch (getTmpFileName f) f
                  (contentOf [("a", "x"), ("a.tmp", "x"), ("b", "y2\n"), ("b.tmp", "y1\n")]
                    (getTmpFileName f))
                  (contentOf [("a", "x"), ("a.tmp", "x"), ("b", "y2\n"), ("b.tmp", "y1\n")] f)]
            else [])),
        .ok ((["a", "b"] : List Path).any
          (fileChanged [("a", "x"), ("a.tmp", "x"), ("b", "y2\n"), ("b.tmp", "y1\n")]))⟩ :=
  c9_diff_examines_all ["a", "b"]
    [("a", "x"), ("a.tmp", "x"), ("b", "y2\n"), ("b.tmp", "y1\n")] (by decide)

end DiffVerify
